import Mathlib

/-!
Verification development for the wellness check-in analysis pipeline
(`src/wellness_app.jsx`): lexicon-based sentiment scoring
(`scoreSentiment`), date-bucketed trend aggregation (the data
computation of `TrendCharts`), and the rule-based recommendation engine
(`generateRecommendations`).

Modelling conventions:
* JavaScript numbers are modelled as rationals (`ℚ`); `NaN` is modelled
  by `none` in `Option ℚ` where it can arise (a missing `mood` added
  into a running sum).
* A JS value that may be `undefined`/`null` is an `Option`.
* `x.toFixed(2)` followed by unary `+` is modelled by `round2`:
  rounding `100 * x` to the nearest integer, ties towards `+∞`
  (the tie rule of `Number.prototype.toFixed`), then dividing by 100.
* `String.prototype.includes` is modelled by `containsSub` via
  character-list prefix search.
-/

namespace Wellness

/-- The positive lexicon `POSITIVE_WORDS` (11 terms). -/
def POSITIVE_WORDS : List String :=
  [("happy"), ("joy"), ("great"), ("good"), ("content"), ("excited"),
   ("calm"), ("relaxed"), ("hope"), ("love"), ("grateful")]

/-- The negative lexicon `NEGATIVE_WORDS` (10 terms). -/
def NEGATIVE_WORDS : List String :=
  [("sad"), ("depressed"), ("angry"), ("anxious"), ("stressed"),
   ("upset"), ("lonely"), ("worried"), ("tired"), ("hopeless")]

/-- Substring occurrence on character lists: does `w` occur (contiguously)
somewhere in the list? Scans every suffix for a prefix match. -/
def hasSub (w : List Char) : List Char → Bool
  | [] => w.isEmpty
  | c :: rest => w.isPrefixOf (c :: rest) || hasSub w rest

/-- The JS `s.includes(w)`, as `containsSub s w`. -/
def containsSub (s w : String) : Bool :=
  hasSub w.data s.data

/-- Characterwise model of `String.prototype.toLowerCase`
(ASCII letters mapped to lower case; all lexicon text is ASCII). -/
def jsToLower (s : String) : String :=
  ⟨s.data.map Char.toLower⟩

/-- The `scoreSentiment` function of the source.  The input is `Option String`
(`none` models an absent / null note); JS `!text` is true exactly for an
absent or empty string.  The accumulator loop adds 1 per positive
lexicon term present and subtracts 1 per negative term present, then
normalizes the *signed accumulator* by the matching lexicon's length. -/
def scoreSentiment : Option String → ℚ
  | none => 0
  | some text =>
    if text = ("") then 0
    else
      let normalized := jsToLower text
      let score : ℤ :=
        NEGATIVE_WORDS.foldl
          (fun sc w => if containsSub normalized w then sc - 1 else sc)
          (POSITIVE_WORDS.foldl
            (fun sc w => if containsSub normalized w then sc + 1 else sc) 0)
      if 0 < score then min 1 ((score : ℚ) / (POSITIVE_WORDS.length : ℚ))
      else if score < 0 then max (-1) ((score : ℚ) / (NEGATIVE_WORDS.length : ℚ))
      else if containsSub normalized ("!") = true ∧ normalized.length < 50 then 1/2
      else 0

/-- Number of positive lexicon terms present in the lowercased text. -/
def posHits (t : String) : ℕ :=
  POSITIVE_WORDS.countP (fun w => containsSub (jsToLower t) w)

/-- Number of negative lexicon terms present in the lowercased text. -/
def negHits (t : String) : ℕ :=
  NEGATIVE_WORDS.countP (fun w => containsSub (jsToLower t) w)

/-- The raw signed score `posHits - negHits`. -/
def rawScore (t : String) : ℤ :=
  (posHits t : ℤ) - (negHits t : ℤ)

/-- The fallback trigger: the (lowercased) text contains `!` and is
shorter than 50 characters. -/
def fallbackCond (t : String) : Prop :=
  containsSub (jsToLower t) ("!") = true ∧ (jsToLower t).length < 50

instance (t : String) : Decidable (fallbackCond t) :=
  inferInstanceAs
    (Decidable (containsSub (jsToLower t) ("!") = true ∧ (jsToLower t).length < 50))

theorem foldl_add_countP (p : String → Bool) :
    ∀ (l : List String) (n : ℤ),
      l.foldl (fun sc w => if p w then sc + 1 else sc) n = n + l.countP p := by
  intro l
  induction l with
  | nil => intro n; simp
  | cons w l ih =>
    intro n
    by_cases hw : p w = true
    · simp [List.foldl_cons, hw, ih, List.countP_cons]
      ring
    · simp [List.foldl_cons, hw, ih, List.countP_cons]

theorem foldl_sub_countP (p : String → Bool) :
    ∀ (l : List String) (n : ℤ),
      l.foldl (fun sc w => if p w then sc - 1 else sc) n = n - l.countP p := by
  intro l
  induction l with
  | nil => intro n; simp
  | cons w l ih =>
    intro n
    by_cases hw : p w = true
    · simp [List.foldl_cons, hw, ih, List.countP_cons]
      ring
    · simp [List.foldl_cons, hw, ih, List.countP_cons]

/-- The accumulator computed by `scoreSentiment` equals `rawScore`. -/
theorem score_acc_eq_rawScore (t : String) :
    NEGATIVE_WORDS.foldl
        (fun sc w => if containsSub (jsToLower t) w then sc - 1 else sc)
        (POSITIVE_WORDS.foldl
          (fun sc w => if containsSub (jsToLower t) w then sc + 1 else sc) 0)
      = rawScore t := by
  rw [foldl_add_countP, foldl_sub_countP, rawScore, posHits, negHits]
  ring

/-- Closed form of `scoreSentiment` on a present text, in terms of the
hit counts. -/
theorem scoreSentiment_spec (t : String) :
    scoreSentiment (some t) =
      if 0 < rawScore t then min 1 ((rawScore t : ℚ) / 11)
      else if rawScore t < 0 then max (-1) ((rawScore t : ℚ) / 10)
      else if fallbackCond t then 1/2
      else 0 := by
  by_cases he : t = ("")
  · subst he
    have h0 : rawScore ("") = 0 := by decide
    have hfb : ¬ fallbackCond ("") := by decide
    rw [scoreSentiment, if_pos rfl, h0,
      if_neg (lt_irrefl (0 : ℤ)), if_neg (lt_irrefl (0 : ℤ)), if_neg hfb]
  · rw [scoreSentiment, if_neg he]
    simp only [score_acc_eq_rawScore]
    rfl

/-- C1, counterexample: for the text `"happy joy sad"` there are two
positive hits and one negative hit, so the raw score is strictly
positive, yet `scoreSentiment` returns `1/11` — the signed difference
divided by the lexicon size — and not `min(1, posHits/Pn) = 2/11` as the
claim states. -/
theorem c1_counterexample :
    posHits ("happy joy sad") = 2 ∧ negHits ("happy joy sad") = 1 ∧
      0 < rawScore ("happy joy sad") ∧
      scoreSentiment (some ("happy joy sad")) = 1/11 ∧
      scoreSentiment (some ("happy joy sad")) ≠
        min 1 ((posHits ("happy joy sad") : ℚ) / 11) := by
  have hp : posHits ("happy joy sad") = 2 := by decide
  have hn : negHits ("happy joy sad") = 1 := by decide
  have hr : rawScore ("happy joy sad") = 1 := by decide
  have hv : scoreSentiment (some ("happy joy sad")) = 1/11 := by
    rw [scoreSentiment_spec, hr, if_pos (by norm_num : (0 : ℤ) < 1),
      min_eq_right (by norm_num : ((1 : ℤ) : ℚ) / 11 ≤ 1)]
    norm_num
  refine ⟨hp, hn, by rw [hr]; norm_num, hv, ?_⟩
  rw [hv, hp, min_eq_right (by norm_num : ((2 : ℕ) : ℚ) / 11 ≤ 1)]
  norm_num

/-- C1, amended: for every text, when the raw score `posHits - negHits`
is strictly positive the result is `min(1, (posHits - negHits)/Pn)`, and
when it is strictly negative the result is `max(-1, (posHits - negHits)/Nn)`
(a negative value of magnitude at most 1): normalization divides the
*signed difference*, not the winning side's hit count, by that side's
lexicon size (`Pn = 11`, `Nn = 10`). -/
theorem c1_normalizes_signed_difference (t : String) :
    scoreSentiment (some t) =
      if 0 < rawScore t then min 1 ((rawScore t : ℚ) / 11)
      else if rawScore t < 0 then max (-1) ((rawScore t : ℚ) / 10)
      else if fallbackCond t then 1/2
      else 0 :=
  scoreSentiment_spec t

/-- C4: `scoreSentiment` is total, always returns a value in `[-1, 1]`,
and returns exactly `0` on an absent (`none`) or empty text. -/
theorem c4_score_total_bounded (t : Option String) :
    (-1 ≤ scoreSentiment t ∧ scoreSentiment t ≤ 1) ∧
      scoreSentiment none = 0 ∧ scoreSentiment (some ("")) = 0 := by
  refine ⟨?_, rfl, by decide⟩
  cases t with
  | none => norm_num [scoreSentiment]
  | some s =>
    rw [scoreSentiment_spec]
    split
    · rename_i h
      have hc : (0 : ℚ) ≤ (rawScore s : ℚ) := by exact_mod_cast h.le
      have hnn : (0 : ℚ) ≤ (rawScore s : ℚ) / 11 := div_nonneg hc (by norm_num)
      exact ⟨le_min (by norm_num) (le_trans (by norm_num) hnn), min_le_left _ _⟩
    · split
      · rename_i h
        have hc : (rawScore s : ℚ) ≤ 0 := by exact_mod_cast h.le
        have hnp : (rawScore s : ℚ) / 10 ≤ 0 :=
          div_nonpos_iff.mpr (Or.inr ⟨hc, by norm_num⟩)
        exact ⟨le_max_left _ _, max_le (by norm_num) (le_trans hnp (by norm_num))⟩
      · split <;> norm_num

/-- C5: whenever the raw score `posHits - negHits` is exactly `0`,
`scoreSentiment` returns `1/2` if the text contains an exclamation mark
and has length under 50 characters, and `0` otherwise. -/
theorem c5_zero_raw_fallback (t : String) (h : rawScore t = 0) :
    scoreSentiment (some t) = if fallbackCond t then 1/2 else 0 := by
  rw [scoreSentiment_spec, h,
    if_neg (lt_irrefl (0 : ℤ)), if_neg (lt_irrefl (0 : ℤ))]

/-- C5, witness: the text `"yay!"` has raw score `0`, contains `!` and
is under 50 characters long, so it scores `1/2`. -/
theorem c5_witness :
    rawScore ("yay!") = 0 ∧ scoreSentiment (some ("yay!")) = 1/2 :=
  ⟨by decide, (c5_zero_raw_fallback ("yay!") (by decide)).trans (if_pos (by decide))⟩

/-- One check-in record.  Only the fields the analysis pipeline reads
are modelled: `date` (exact string key for grouping), `mood`
(`none` = absent/undefined) and `sentiment` (`none` = absent). -/
structure Entry where
  date : String
  mood : Option ℤ
  sentiment : Option ℚ
deriving DecidableEq

/-- An advisory message `{id, text}`. -/
structure Recommendation where
  id : String
  text : String
deriving DecidableEq

/-- The JS expression `e.mood || 3`: `||` substitutes 3 exactly for a
*falsy* mood, i.e. an absent mood or a mood equal to 0; every other
value — including out-of-range ones — passes through unchanged. -/
def moodOrDefault (e : Entry) : ℚ :=
  match e.mood with
  | none => 3
  | some m => if m = 0 then 3 else (m : ℚ)

/-- The JS expression `e.sentiment ?? 0`: an absent sentiment counts
as 0. -/
def sentOrDefault (e : Entry) : ℚ :=
  (e.sentiment).getD 0

/-- The `avgMood` statistic of `generateRecommendations`. -/
def avgMoodOf (entries : List Entry) : ℚ :=
  ((entries.map moodOrDefault).sum) / (entries.length : ℚ)

/-- The `avgSentiment` statistic of `generateRecommendations`. -/
def avgSentOf (entries : List Entry) : ℚ :=
  ((entries.map sentOrDefault).sum) / (entries.length : ℚ)

/-- The de-duplication filter over a `seen` set of texts: keep a
recommendation iff its text has not been seen before, in order. -/
def dedupAux (seen : List String) : List Recommendation → List Recommendation
  | [] => []
  | r :: rs => if r.text ∈ seen then dedupAux seen rs
               else r :: dedupAux (r.text :: seen) rs

/-- Remove later duplicates by exact `text`, keeping first occurrences. -/
def dedupByText (l : List Recommendation) : List Recommendation :=
  dedupAux [] l

/-- The two fixed cold-start recommendations. -/
def defaultRecs : List Recommendation :=
  [⟨("r_default"), ("Try a short 5-minute breathing exercise to start your day.")⟩,
   ⟨("r_walk"), ("Go for a 10-minute walk outside — nature helps mood.")⟩]

/-- Low-mood tier (`avgMood ≤ 2.5`). -/
def groundRec : Recommendation :=
  ⟨("r_ground"),
   ("Try a grounding exercise: name 5 things you can see, 4 you can touch, 3 you can hear.")⟩

def talkRec : Recommendation :=
  ⟨("r_talk"), ("Consider reaching out to a friend or family for emotional support.")⟩

/-- Middle tier (`2.5 < avgMood ≤ 3.5`). -/
def breatheRec : Recommendation :=
  ⟨("r_breathe"), ("Try a 3-4-5 breathing cycle for 3 minutes.")⟩

def walk2Rec : Recommendation :=
  ⟨("r_walk2"), ("Short physical activity (walk/stretch) can improve mood.")⟩

/-- High tier (`avgMood > 3.5`). -/
def keepRec : Recommendation :=
  ⟨("r_keep"), ("You're doing well — keep your current routines and celebrate small wins.")⟩

/-- Sentiment overlay (`avgSentiment < -0.1`). -/
def journalRec : Recommendation :=
  ⟨("r_journal"), ("Try journaling: write one honest paragraph about what's on your mind.")⟩

def sleepRec : Recommendation :=
  ⟨("r_sleep"), ("Focus on sleep hygiene: limit screens 1 hour before bed.")⟩

/-- The candidate list assembled from the two averages: the mood tier
(first match wins) followed by the sentiment overlay, then de-duplicated
by text. -/
def recBody (avgMood avgSentiment : ℚ) : List Recommendation :=
  dedupByText
    ((if avgMood ≤ 5/2 then [groundRec, talkRec]
      else if avgMood ≤ 7/2 then [breatheRec, walk2Rec]
      else [keepRec])
      ++ (if avgSentiment < -(1/10) then [journalRec, sleepRec] else []))

/-- The `generateRecommendations` function of the source.  A `none` input models a
null/undefined argument (the JS guard `!recentEntries`); an empty list
short-circuits to the cold-start defaults before any statistic is
computed. -/
def generateRecommendations : Option (List Entry) → List Recommendation
  | none => defaultRecs
  | some recentEntries =>
    if recentEntries.isEmpty then defaultRecs
    else recBody (avgMoodOf recentEntries) (avgSentOf recentEntries)

/-- C2, counterexample: an entry with the out-of-range mood `6` is *not*
treated as mood 3 — `6` is truthy, so `e.mood || 3` keeps it.  With one
entry of mood 6 the engine lands in the high tier (`avgMood = 6 > 3.5`)
and returns the keep-routine item, whereas mood 3 would land in the
middle tier and return the breathing + activity pair. -/
theorem c2_counterexample :
    generateRecommendations (some [⟨("2024-01-01"), some 6, some 0⟩]) = [keepRec] ∧
      generateRecommendations (some [⟨("2024-01-01"), some 3, some 0⟩]) =
        [breatheRec, walk2Rec] ∧
      [keepRec] ≠ [breatheRec, walk2Rec] := by
  refine ⟨?_, ?_, by decide⟩ <;>
    (norm_num [generateRecommendations, avgMoodOf, avgSentOf, moodOrDefault,
      sentOrDefault, recBody, dedupByText, dedupAux, keepRec, breatheRec,
      walk2Rec, groundRec, talkRec, journalRec, sleepRec] <;> decide)

/-- C2, amended: `generateRecommendations` never fails, and an entry
whose mood is *absent or equal to 0* (the falsy values) is treated as
mood 3 when computing `avgMood` — replacing such an entry's mood by a
literal 3 leaves the output unchanged.  (A nonzero mood outside `[1,5]`,
e.g. 6 or -2, is used at its own value, see the counterexample.) -/
theorem c2_falsy_mood_defaults_to_three (pre post : List Entry) (e : Entry)
    (h : e.mood = none ∨ e.mood = some 0) :
    generateRecommendations (some (pre ++ e :: post)) =
      generateRecommendations (some (pre ++ ({ e with mood := some 3 }) :: post)) := by
  have hm : moodOrDefault e = 3 := by
    rcases h with h | h <;> simp [moodOrDefault, h]
  have hm' : moodOrDefault { e with mood := some 3 } = 3 := by
    norm_num [moodOrDefault]
  have hne : (pre ++ e :: post).isEmpty = false := by cases pre <;> rfl
  have hne' : (pre ++ ({ e with mood := some 3 }) :: post).isEmpty = false := by
    cases pre <;> rfl
  have hA : avgMoodOf (pre ++ e :: post)
      = avgMoodOf (pre ++ ({ e with mood := some 3 }) :: post) := by
    unfold avgMoodOf
    rw [List.map_append, List.map_append, List.map_cons, List.map_cons, hm, hm']
    simp
  have hS : avgSentOf (pre ++ e :: post)
      = avgSentOf (pre ++ ({ e with mood := some 3 }) :: post) := by
    unfold avgSentOf
    rw [List.map_append, List.map_append, List.map_cons, List.map_cons]
    simp [sentOrDefault]
  simp [generateRecommendations, hne, hne', hA, hS]

/-- C2, witness: a single entry with an absent mood yields the same
recommendations as the same entry with mood 3. -/
theorem c2_witness :
    generateRecommendations (some [⟨("2024-01-01"), none, some 0⟩]) =
      generateRecommendations (some [⟨("2024-01-01"), some 3, some 0⟩]) :=
  c2_falsy_mood_defaults_to_three [] [] ⟨("2024-01-01"), none, some 0⟩ (Or.inl rfl)

/-- C6: on an absent (`none`) or empty entry list the engine returns
exactly the two fixed cold-start recommendations, breathing exercise
first and walk second, before any statistic is computed. -/
theorem c6_cold_start :
    generateRecommendations none = defaultRecs ∧
      generateRecommendations (some []) = defaultRecs ∧
      defaultRecs.map Recommendation.id = [("r_default"), ("r_walk")] :=
  ⟨rfl, rfl, rfl⟩

/-- C7: for every non-empty window with `avgMood > 3.5` and
`avgSentiment < -0.1`, the output is exactly the keep-routine item
followed by the journaling and sleep-hygiene overlay, three pairwise
distinct texts (so de-duplication removes nothing). -/
theorem c7_high_mood_negative_sentiment (es : List Entry) (h1 : es ≠ [])
    (h2 : 7/2 < avgMoodOf es) (h3 : avgSentOf es < -(1/10)) :
    generateRecommendations (some es) = [keepRec, journalRec, sleepRec] ∧
      keepRec.text ≠ journalRec.text ∧ keepRec.text ≠ sleepRec.text ∧
      journalRec.text ≠ sleepRec.text := by
  refine ⟨?_, by decide, by decide, by decide⟩
  have hne : es.isEmpty = false := by
    cases es with
    | nil => exact absurd rfl h1
    | cons a l => rfl
  simp only [generateRecommendations, hne, Bool.false_eq_true, if_false]
  rw [recBody, if_neg (not_le.mpr (by linarith)), if_neg (not_le.mpr h2), if_pos h3]
  decide

/-- C7, witness: two entries with moods 4, 5 and sentiments -0.5, -0.5
(so `avgMood = 4.5`, `avgSentiment = -0.5`) produce exactly the three
items. -/
theorem c7_witness :
    generateRecommendations
        (some [⟨("2024-01-02"), some 4, some (-(1/2))⟩,
               ⟨("2024-01-01"), some 5, some (-(1/2))⟩]) =
      [keepRec, journalRec, sleepRec] :=
  (c7_high_mood_negative_sentiment _ (by decide)
    (by norm_num [avgMoodOf, moodOrDefault])
    (by norm_num [avgSentOf, sentOrDefault])).1

/-- C10: the recommendation engine is invariant under permutation of its
input window: `avgMood` and `avgSentiment` depend only on the multiset
of entries, and everything downstream depends only on those averages. -/
theorem c10_perm_invariant (l l' : List Entry) (h : l.Perm l') :
    generateRecommendations (some l) = generateRecommendations (some l') := by
  cases l with
  | nil =>
    rw [(h.symm.eq_nil : l' = [])]
  | cons a t =>
    have hne : (a :: t).isEmpty = false := rfl
    have hne' : l'.isEmpty = false := by
      cases l' with
      | nil => simpa using h.length_eq
      | cons b u => rfl
    have hA : avgMoodOf (a :: t) = avgMoodOf l' := by
      unfold avgMoodOf
      rw [(h.map moodOrDefault).sum_eq, h.length_eq]
    have hS : avgSentOf (a :: t) = avgSentOf l' := by
      unfold avgSentOf
      rw [(h.map sentOrDefault).sum_eq, h.length_eq]
    simp [generateRecommendations, hne, hne', hA, hS]

/-- C10, witness: swapping the two entries of a window leaves the
output unchanged. -/
theorem c10_witness :
    generateRecommendations
        (some [⟨("a"), some 1, some 0⟩, ⟨("b"), some 5, none⟩]) =
      generateRecommendations
        (some [⟨("b"), some 5, none⟩, ⟨("a"), some 1, some 0⟩]) :=
  c10_perm_invariant _ _ (List.Perm.swap _ _ _)

/-- NaN-propagating addition of JS numbers: `none` models `NaN` (and an
`undefined` operand, which numeric `+` coerces to `NaN`). -/
def jsAdd : Option ℚ → Option ℚ → Option ℚ
  | some x, some y => some (x + y)
  | _, _ => none

/-- The value `e.mood` read as a JS number: an absent mood is `undefined`, which
`+=` turns into `NaN` (`none`). -/
def moodNum (e : Entry) : Option ℚ :=
  (e.mood).map (fun m => (m : ℚ))

/-- One accumulator cell of `dataMap`: running mood sum (possibly NaN),
running sentiment sum, and entry count for one date. -/
structure Group where
  moodSum : Option ℚ
  sentimentSum : ℚ
  count : ℕ
deriving DecidableEq

/-- The freshly initialized cell `{moodSum: 0, count: 0, sentimentSum: 0}`. -/
def emptyGroup : Group :=
  ⟨some 0, 0, 0⟩

/-- The body of the `entries.forEach` loop for one entry:
`moodSum += e.mood; sentimentSum += e.sentiment ?? 0; count += 1`. -/
def addEntry (g : Group) (e : Entry) : Group :=
  ⟨jsAdd g.moodSum (moodNum e), g.sentimentSum + sentOrDefault e, g.count + 1⟩

/-- Key lookup in the insertion-ordered association list modelling
`dataMap` (JS object with string keys preserves insertion order). -/
def lookupG : List (String × Group) → String → Option Group
  | [], _ => none
  | kv :: rest, d => if kv.1 = d then some kv.2 else lookupG rest d

/-- Processing one entry: update the existing cell for its date, or
append a fresh cell at the end (JS property creation order). -/
def step (m : List (String × Group)) (e : Entry) : List (String × Group) :=
  if (lookupG m e.date).isSome then
    m.map (fun kv => if kv.1 = e.date then (kv.1, addEntry kv.2 e) else kv)
  else
    m ++ [(e.date, addEntry emptyGroup e)]

/-- The fully built `dataMap` after the `forEach` loop. -/
def build (entries : List Entry) : List (String × Group) :=
  entries.foldl step []

/-- The coercion `+(x.toFixed(2))`: round to the nearest multiple of `1/100`, ties
towards `+∞` (the `toFixed` tie rule picks the larger candidate). -/
def round2 (q : ℚ) : ℚ :=
  ((round (100 * q) : ℤ) : ℚ) / 100

/-- One aggregated day, as produced for the charts: `meanMood` is
`none` when the JS value is `NaN`. -/
structure TrendPoint where
  date : String
  meanMood : Option ℚ
  meanSentiment : ℚ
deriving DecidableEq

/-- The point literal of the source: date, rounded mean mood (NaN when the sum is NaN), rounded mean sentiment. -/
def mkPoint (kv : String × Group) : TrendPoint :=
  ⟨kv.1,
   (kv.2.moodSum).map (fun s => round2 (s / (kv.2.count : ℚ))),
   round2 (kv.2.sentimentSum / (kv.2.count : ℚ))⟩

/-- The sort order of the chart data.  The source comparator
`(a, b) => a.date > b.date ? 1 : -1` sorts ascending by date; since the
keys of `dataMap` are pairwise distinct, the result is the unique
ascending arrangement, here produced by insertion sort on `≤`. -/
def byDateLE (p q : TrendPoint) : Prop :=
  p.date ≤ q.date

instance : DecidableRel byDateLE :=
  fun p q => inferInstanceAs (Decidable (p.date ≤ q.date))

instance : IsTotal TrendPoint byDateLE :=
  ⟨fun p q => le_total p.date q.date⟩

instance : IsTrans TrendPoint byDateLE :=
  ⟨fun _ _ _ h h' => le_trans h h'⟩

/-- The aggregation performed by `TrendCharts`: bucket by exact date
string, reduce to rounded means, sort ascending by date. -/
def aggregate (entries : List Entry) : List TrendPoint :=
  List.insertionSort byDateLE ((build entries).map mkPoint)

/-- The running mood sum of a list of entries, starting from 0
(NaN-propagating). -/
def moodSumOf (l : List Entry) : Option ℚ :=
  l.foldl (fun s e => jsAdd s (moodNum e)) (some 0)

/-- Merging a pending cell state with a batch of same-date entries:
`none` stands for the absence of a cell. -/
def mergeG : Option Group → List Entry → Option Group
  | some g, l => some (l.foldl addEntry g)
  | none, [] => none
  | none, e :: l => some ((e :: l).foldl addEntry emptyGroup)

/-- The keys of the association list, in insertion order. -/
def keysOf (m : List (String × Group)) : List String :=
  m.map Prod.fst

theorem lookupG_map_update (m : List (String × Group)) (e : Entry) (d : String) :
    lookupG (m.map (fun kv => if kv.1 = e.date then (kv.1, addEntry kv.2 e) else kv)) d
      = if d = e.date then (lookupG m d).map (fun g => addEntry g e)
        else lookupG m d := by
  induction m with
  | nil => by_cases hd : d = e.date <;> simp [lookupG, hd]
  | cons kv rest ih =>
    by_cases hk : kv.1 = e.date
    · by_cases hd : d = e.date
      · have hkd : kv.1 = d := hk.trans hd.symm
        simp [lookupG, hk, hd, hkd]
      · have hkd : ¬ kv.1 = d := fun h => hd (h.symm.trans hk)
        have hd2 : ¬ e.date = d := fun h => hd h.symm
        simp [lookupG, hk, hd, hkd, hd2, ih]
    · by_cases hkd : kv.1 = d
      · have hd : ¬ d = e.date := fun h => hk (hkd.trans h)
        simp [lookupG, hk, hkd, hd]
      · simp [lookupG, hk, hkd, ih]

theorem lookupG_append (m : List (String × Group)) (kv : String × Group) (d : String) :
    lookupG (m ++ [kv]) d =
      match lookupG m d with
      | some g => some g
      | none => if kv.1 = d then some kv.2 else none := by
  induction m with
  | nil => simp [lookupG]
  | cons a rest ih => by_cases h : a.1 = d <;> simp [lookupG, h, ih]

theorem isSome_lookupG_iff (m : List (String × Group)) (d : String) :
    (lookupG m d).isSome = true ↔ d ∈ keysOf m := by
  induction m with
  | nil => simp [lookupG, keysOf]
  | cons kv rest ih =>
    by_cases h : kv.1 = d
    · simp [lookupG, keysOf, h]
    · have h' : ¬ d = kv.1 := fun hh => h hh.symm
      simp [lookupG, keysOf, h, h', ih]

theorem lookupG_step (m : List (String × Group)) (e : Entry) (d : String) :
    lookupG (step m e) d =
      if d = e.date then some (addEntry ((lookupG m e.date).getD emptyGroup) e)
      else lookupG m d := by
  unfold step
  by_cases hs : (lookupG m e.date).isSome = true
  · rw [if_pos hs, lookupG_map_update]
    by_cases hd : d = e.date
    · subst hd
      obtain ⟨g, hg⟩ := Option.isSome_iff_exists.mp hs
      simp [hg]
    · simp [hd]
  · rw [if_neg hs, lookupG_append]
    have hnone : lookupG m e.date = none := Option.not_isSome_iff_eq_none.mp hs
    by_cases hd : d = e.date
    · subst hd
      simp [hnone]
    · have hd' : ¬ e.date = d := fun h => hd h.symm
      cases hL : lookupG m d with
      | some g => simp [hL, hd]
      | none => simp [hL, hd, hd']

theorem mergeG_nil (o : Option Group) : mergeG o [] = o := by
  cases o <;> rfl

theorem mergeG_cons (o : Option Group) (e : Entry) (l : List Entry) :
    mergeG o (e :: l) = mergeG (some (addEntry (o.getD emptyGroup) e)) l := by
  cases o <;> simp [mergeG, List.foldl_cons]

theorem lookupG_foldl_step (l : List Entry) :
    ∀ (m : List (String × Group)) (d : String),
      lookupG (l.foldl step m) d
        = mergeG (lookupG m d) (l.filter (fun e => e.date == d)) := by
  induction l with
  | nil =>
    intro m d
    simp [mergeG_nil]
  | cons e l ih =>
    intro m d
    rw [List.foldl_cons, ih, lookupG_step]
    by_cases hd : e.date = d
    · rw [List.filter_cons_of_pos (by simpa using hd), mergeG_cons, if_pos hd.symm, hd]
    · rw [List.filter_cons_of_neg (by simpa using hd), if_neg (fun h => hd h.symm)]

theorem keysOf_step (m : List (String × Group)) (e : Entry) :
    keysOf (step m e)
      = if (lookupG m e.date).isSome then keysOf m else keysOf m ++ [e.date] := by
  unfold step keysOf
  by_cases hs : (lookupG m e.date).isSome = true
  · rw [if_pos hs, if_pos hs, List.map_map]
    congr 1
    funext kv
    by_cases h : kv.1 = e.date <;> simp [h]
  · rw [if_neg hs, if_neg hs]
    simp

theorem keysOf_foldl_nodup (l : List Entry) :
    ∀ m, (keysOf m).Nodup → (keysOf (l.foldl step m)).Nodup := by
  induction l with
  | nil => intro m h; exact h
  | cons e l ih =>
    intro m h
    rw [List.foldl_cons]
    apply ih
    rw [keysOf_step]
    by_cases hs : (lookupG m e.date).isSome = true
    · rwa [if_pos hs]
    · rw [if_neg hs]
      have hnm : e.date ∉ keysOf m := fun hm => hs ((isSome_lookupG_iff m e.date).mpr hm)
      simp [List.nodup_append, h, hnm]

theorem keysOf_build_nodup (es : List Entry) : (keysOf (build es)).Nodup :=
  keysOf_foldl_nodup es [] (by simp [keysOf])

theorem mem_keysOf_build (es : List Entry) (d : String) :
    d ∈ keysOf (build es) ↔ d ∈ es.map Entry.date := by
  rw [← isSome_lookupG_iff, build, lookupG_foldl_step]
  have h0 : lookupG [] d = none := rfl
  rw [h0]
  cases hf : es.filter (fun e => e.date == d) with
  | nil =>
    have hno : ∀ e ∈ es, ¬ e.date = d := by
      intro e he hcon
      have : e ∈ es.filter (fun e => e.date == d) :=
        List.mem_filter.mpr ⟨he, by simpa using hcon⟩
      rw [hf] at this
      cases this
    simp only [mergeG, Option.isSome_none, List.mem_map]
    constructor
    · intro hc; cases hc
    · rintro ⟨e, he, hde⟩
      exact absurd hde (hno e he)
  | cons a l =>
    have ha : a ∈ es.filter (fun e => e.date == d) := by
      rw [hf]; exact List.mem_cons_self a l
    obtain ⟨hmem, had⟩ := List.mem_filter.mp ha
    simp only [mergeG, Option.isSome_some, List.mem_map, true_iff]
    exact ⟨a, hmem, by simpa using had⟩

theorem mem_assoc_lookup (kv : String × Group) :
    ∀ m : List (String × Group),
      (keysOf m).Nodup → kv ∈ m → lookupG m kv.1 = some kv.2 := by
  intro m
  induction m with
  | nil => intro _ hm; cases hm
  | cons a rest ih =>
    intro hnd hm
    have hnd' : (keysOf rest).Nodup ∧ a.1 ∉ keysOf rest := by
      have : keysOf (a :: rest) = a.1 :: keysOf rest := rfl
      rw [this] at hnd
      exact ⟨hnd.of_cons, (List.nodup_cons.mp hnd).1⟩
    rcases List.mem_cons.mp hm with rfl | hm'
    · simp [lookupG]
    · have hk : kv.1 ∈ keysOf rest := List.mem_map_of_mem Prod.fst hm'
      have hne : ¬ a.1 = kv.1 := fun h => hnd'.2 (h ▸ hk)
      simp [lookupG, hne, ih hnd'.1 hm']

theorem foldl_addEntry_moodSum (l : List Entry) :
    ∀ g : Group,
      (l.foldl addEntry g).moodSum
        = l.foldl (fun s e => jsAdd s (moodNum e)) g.moodSum := by
  induction l with
  | nil => intro g; rfl
  | cons e l ih => intro g; rw [List.foldl_cons, List.foldl_cons, ih]; rfl

theorem foldl_addEntry_sentSum (l : List Entry) :
    ∀ g : Group,
      (l.foldl addEntry g).sentimentSum
        = g.sentimentSum + (l.map sentOrDefault).sum := by
  induction l with
  | nil => intro g; simp
  | cons e l ih =>
    intro g
    rw [List.foldl_cons, ih, List.map_cons, List.sum_cons]
    show g.sentimentSum + sentOrDefault e + _ = _
    ring

theorem foldl_addEntry_count (l : List Entry) :
    ∀ g : Group, (l.foldl addEntry g).count = g.count + l.length := by
  induction l with
  | nil => intro g; simp
  | cons e l ih =>
    intro g
    rw [List.foldl_cons, ih, List.length_cons]
    show g.count + 1 + l.length = _
    omega

theorem foldl_jsAdd_none (l : List Entry) :
    l.foldl (fun s e => jsAdd s (moodNum e)) none = none := by
  induction l with
  | nil => rfl
  | cons e l ih => rw [List.foldl_cons]; show l.foldl _ (jsAdd none _) = none; exact ih

theorem foldl_jsAdd_eq_none_iff (l : List Entry) :
    ∀ q : ℚ,
      l.foldl (fun s e => jsAdd s (moodNum e)) (some q) = none
        ↔ ∃ e ∈ l, e.mood = none := by
  induction l with
  | nil => simp
  | cons e l ih =>
    intro q
    cases he : e.mood with
    | none =>
      have : jsAdd (some q) (moodNum e) = none := by simp [jsAdd, moodNum, he]
      rw [List.foldl_cons]
      show l.foldl _ (jsAdd (some q) (moodNum e)) = none ↔ _
      rw [this, foldl_jsAdd_none]
      simp
      exact Or.inl he
    | some mv =>
      have : jsAdd (some q) (moodNum e) = some (q + (mv : ℚ)) := by
        simp [jsAdd, moodNum, he]
      rw [List.foldl_cons]
      show l.foldl _ (jsAdd (some q) (moodNum e)) = none ↔ _
      rw [this, ih]
      constructor
      · rintro ⟨e', he', hm⟩
        exact ⟨e', List.mem_cons_of_mem e he', hm⟩
      · rintro ⟨e', he', hm⟩
        rcases List.mem_cons.mp he' with rfl | hmem
        · rw [he] at hm; cases hm
        · exact ⟨e', hmem, hm⟩

theorem moodSumOf_eq_none_iff (l : List Entry) :
    moodSumOf l = none ↔ ∃ e ∈ l, e.mood = none :=
  foldl_jsAdd_eq_none_iff l 0

/-- Every point of `aggregate es` is `mkPoint` of the cell accumulated
from exactly the entries carrying its date. -/
theorem mem_aggregate_group (es : List Entry) (p : TrendPoint)
    (hp : p ∈ aggregate es) :
    ∃ g : Group, p = mkPoint (p.date, g)
      ∧ g.moodSum = moodSumOf (es.filter (fun e => e.date == p.date))
      ∧ g.sentimentSum
          = ((es.filter (fun e => e.date == p.date)).map sentOrDefault).sum
      ∧ g.count = (es.filter (fun e => e.date == p.date)).length := by
  have hp' : p ∈ (build es).map mkPoint :=
    ((List.perm_insertionSort byDateLE ((build es).map mkPoint)).mem_iff).mp hp
  obtain ⟨kv, hkv, hpe⟩ := List.mem_map.mp hp'
  have hdate : p.date = kv.1 := by rw [← hpe]; rfl
  have hl : lookupG (build es) kv.1 = some kv.2 :=
    mem_assoc_lookup kv (build es) (keysOf_build_nodup es) hkv
  rw [build, lookupG_foldl_step] at hl
  have h0 : lookupG [] kv.1 = none := rfl
  rw [h0] at hl
  cases hf : es.filter (fun e => e.date == kv.1) with
  | nil =>
    rw [hf] at hl
    cases hl
  | cons a l =>
    rw [hf] at hl
    have hg : kv.2 = (a :: l).foldl addEntry emptyGroup := by
      have : mergeG none (a :: l) = some ((a :: l).foldl addEntry emptyGroup) := rfl
      rw [this] at hl
      exact (Option.some_injective _ hl).symm
    refine ⟨kv.2, ?_, ?_, ?_, ?_⟩
    · rw [hdate, ← hpe]
    · rw [hdate, hf, hg, foldl_addEntry_moodSum, moodSumOf]
      rfl
    · rw [hdate, hf, hg, foldl_addEntry_sentSum]
      show (0 : ℚ) + _ = _
      ring
    · rw [hdate, hf, hg, foldl_addEntry_count]
      show 0 + (a :: l).length = _
      omega

theorem aggregate_dates_perm (es : List Entry) :
    ((aggregate es).map TrendPoint.date).Perm (keysOf (build es)) := by
  have h1 := (List.perm_insertionSort byDateLE ((build es).map mkPoint)).map TrendPoint.date
  have h2 : ((build es).map mkPoint).map TrendPoint.date = keysOf (build es) := by
    rw [List.map_map]
    rfl
  rw [← h2]
  exact h1

theorem aggregate_dates_nodup (es : List Entry) :
    ((aggregate es).map TrendPoint.date).Nodup :=
  (aggregate_dates_perm es).nodup_iff.mpr (keysOf_build_nodup es)

theorem aggregate_dates_toFinset (es : List Entry) :
    ((aggregate es).map TrendPoint.date).toFinset = (es.map Entry.date).toFinset := by
  rw [List.toFinset_eq_of_perm _ _ (aggregate_dates_perm es)]
  ext d
  simp only [List.mem_toFinset]
  exact mem_keysOf_build es d

/-- C8: the output dates of `aggregate` are strictly increasing under
the lexicographic string order (hence pairwise distinct: exactly one
point per distinct input date), the set of output dates is exactly the
set of input dates (absent dates produce no point), and the empty input
yields the empty output. -/
theorem c8_sorted_unique_dates (es : List Entry) :
    ((aggregate es).map TrendPoint.date).Pairwise (· < ·)
      ∧ ((aggregate es).map TrendPoint.date).toFinset = (es.map Entry.date).toFinset
      ∧ aggregate ([] : List Entry) = [] := by
  refine ⟨?_, aggregate_dates_toFinset es, rfl⟩
  have hsorted : (aggregate es).Pairwise byDateLE :=
    List.sorted_insertionSort byDateLE ((build es).map mkPoint)
  have hle : ((aggregate es).map TrendPoint.date).Pairwise (· ≤ ·) := by
    rw [List.pairwise_map]
    exact hsorted
  exact List.Sorted.lt_of_le hle (aggregate_dates_nodup es)

/-- C3, counterexample: on a single entry lacking a mood, `aggregate`
produces a point whose `meanMood` is NaN (`none`), not a well-defined
number: `moodSum += undefined` poisons the sum and no defaulting rule
rescues the mood (only the sentiment has the `?? 0` default). -/
theorem c3_counterexample :
    aggregate [⟨("2024-01-01"), none, some 0⟩]
        = [⟨("2024-01-01"), none, 0⟩]
      ∧ (aggregate [⟨("2024-01-01"), none, some 0⟩]).map TrendPoint.meanMood
          = [none] := by
  have h : aggregate [⟨("2024-01-01"), none, some 0⟩]
      = [⟨("2024-01-01"), none, 0⟩] := by
    norm_num [aggregate, build, step, lookupG, addEntry, emptyGroup, mkPoint,
      moodNum, sentOrDefault, jsAdd, round2, round_eq]
  exact ⟨h, by rw [h]; rfl⟩

/-- C3, amended: `aggregate` is total and returns exactly one point per
distinct input date; a missing *sentiment* is defaulted to 0 (so
`meanSentiment` is always a well-defined rational), but a date's
`meanMood` is NaN (`none`) precisely when some entry of that date lacks
a mood. -/
theorem c3_missing_fields (es : List Entry) :
    ((aggregate es).map TrendPoint.date).Nodup
      ∧ ((aggregate es).map TrendPoint.date).toFinset = (es.map Entry.date).toFinset
      ∧ ∀ p ∈ aggregate es,
          (p.meanMood = none ↔ ∃ e ∈ es, e.date = p.date ∧ e.mood = none) := by
  refine ⟨aggregate_dates_nodup es, aggregate_dates_toFinset es, ?_⟩
  intro p hp
  obtain ⟨g, hpg, hmood, _, _⟩ := mem_aggregate_group es p hp
  have hmm : p.meanMood = g.moodSum.map (fun s => round2 (s / (g.count : ℚ))) := by
    conv_lhs => rw [hpg]
    rfl
  rw [hmm, Option.map_eq_none', hmood, moodSumOf_eq_none_iff]
  constructor
  · rintro ⟨e, hef, hm⟩
    obtain ⟨he, hed⟩ := List.mem_filter.mp hef
    exact ⟨e, he, by simpa using hed, hm⟩
  · rintro ⟨e, he, hed, hm⟩
    exact ⟨e, List.mem_filter.mpr ⟨he, by simpa using hed⟩, hm⟩

/-- C3, witness: the amended characterization applied to the singleton
input with the mood absent. -/
theorem c3_witness :
    (⟨("2024-01-01"), none, (0 : ℚ)⟩ : TrendPoint).meanMood = none
      ↔ ∃ e ∈ [(⟨("2024-01-01"), none, some 0⟩ : Entry)],
          e.date = ("2024-01-01") ∧ e.mood = none := by
  have hmem : (⟨("2024-01-01"), none, (0 : ℚ)⟩ : TrendPoint)
      ∈ aggregate [⟨("2024-01-01"), none, some 0⟩] := by
    norm_num [aggregate, build, step, lookupG, addEntry, emptyGroup, mkPoint,
      moodNum, sentOrDefault, jsAdd, round2, round_eq]
  exact (c3_missing_fields [⟨("2024-01-01"), none, some 0⟩]).2.2 _ hmem

/-- C9: every output point's `meanMood` is the (NaN-propagating) mood
sum of exactly the entries carrying its date divided by their count and
rounded to 2 decimals, and its `meanSentiment` is the sentiment sum
(missing sentiment counted as 0) divided by the count and rounded to 2
decimals; on the three-entry example of the spec this yields the two
points `(2024-01-01, 4.0)` and `(2024-01-02, 1.0)`. -/
theorem c9_group_means (es : List Entry) (p : TrendPoint)
    (hp : p ∈ aggregate es) :
    p.meanMood = (moodSumOf (es.filter (fun e => e.date == p.date))).map
        (fun s => round2 (s / ((es.filter (fun e => e.date == p.date)).length : ℚ)))
      ∧ p.meanSentiment = round2
          ((((es.filter (fun e => e.date == p.date)).map sentOrDefault).sum)
            / ((es.filter (fun e => e.date == p.date)).length : ℚ))
      ∧ aggregate [⟨("2024-01-01"), some 3, some 0⟩,
                   ⟨("2024-01-01"), some 5, some 0⟩,
                   ⟨("2024-01-02"), some 1, some 0⟩]
          = [⟨("2024-01-01"), some 4, 0⟩, ⟨("2024-01-02"), some 1, 0⟩] := by
  obtain ⟨g, hpg, hmood, hsent, hcount⟩ := mem_aggregate_group es p hp
  refine ⟨?_, ?_, ?_⟩
  · conv_lhs => rw [hpg]
    show g.moodSum.map (fun s => round2 (s / (g.count : ℚ))) = _
    rw [hmood, hcount]
  · conv_lhs => rw [hpg]
    show round2 (g.sentimentSum / (g.count : ℚ)) = _
    rw [hsent, hcount]
  · have hle : byDateLE ⟨("2024-01-01"), some 4, 0⟩ ⟨("2024-01-02"), some 1, 0⟩ := by
      show ("2024-01-01" : String) ≤ ("2024-01-02")
      rw [String.le_iff_toList_le]
      decide
    have hbuild : (build [⟨("2024-01-01"), some 3, some 0⟩,
        ⟨("2024-01-01"), some 5, some 0⟩,
        ⟨("2024-01-02"), some 1, some 0⟩]).map mkPoint
        = [⟨("2024-01-01"), some 4, 0⟩, ⟨("2024-01-02"), some 1, 0⟩] := by
      have hne : ("2024-01-01" : String) ≠ ("2024-01-02") := by decide
      norm_num [build, step, lookupG, addEntry, emptyGroup, mkPoint,
        moodNum, sentOrDefault, jsAdd, round2, round_eq, hne]
    rw [aggregate, hbuild]
    simp only [List.insertionSort, List.orderedInsert_nil]
    exact List.orderedInsert_of_le byDateLE [] hle

/-- C9, witness: the general mean-mood formula applied to a concrete
singleton input. -/
theorem c9_witness :
    (⟨("2024-01-01"), some 3, (0 : ℚ)⟩ : TrendPoint).meanMood
      = (moodSumOf ([(⟨("2024-01-01"), some 3, some 0⟩ : Entry)].filter
          (fun e => e.date == ("2024-01-01")))).map
          (fun s => round2 (s /
            (([(⟨("2024-01-01"), some 3, some 0⟩ : Entry)].filter
              (fun e => e.date == ("2024-01-01"))).length : ℚ))) := by
  have hmem : (⟨("2024-01-01"), some 3, (0 : ℚ)⟩ : TrendPoint)
      ∈ aggregate [⟨("2024-01-01"), some 3, some 0⟩] := by
    norm_num [aggregate, build, step, lookupG, addEntry, emptyGroup, mkPoint,
      moodNum, sentOrDefault, jsAdd, round2, round_eq]
  exact (c9_group_means _ _ hmem).1

end Wellness
